import Mathlib

/-!
Shallow embedding of the core of `stapled`, a caching OCSP stapling daemon,
with verification of its specification's claims.

Conventions of the embedding:
* Byte strings (`[]byte`) are `List Nat`.
* `time.Time` and `time.Duration` are `Int` (nanoseconds); `t1.Before(t2)`
  is `t1 < t2` and `t1.After(t2)` is `t2 < t1`, both strict as in Go.
* Cryptographic hash functions (`crypto.SHA1` … `crypto.SHA512`,
  `crypto/sha256`) and the ASN.1 decoding of a SubjectPublicKeyInfo are
  library primitives; they enter as function parameters (`Bytes → Bytes`
  resp. `Bytes → Option Bytes` for the fallible decode).
* Go maps are partial functions `κ → Option α`.
* `math/big.Int.Bytes()` is the big-endian minimal encoding of the
  absolute value (`natBytes`).
-/

namespace Stapled

/-- Raw byte strings. -/
abbrev Bytes := List Nat

/-- A hash primitive such as SHA-1 / SHA-256 / SHA-384 / SHA-512: writing
bytes and taking the sum is function application. -/
abbrev HashFn := Bytes → Bytes

/-- The ASN.1 decode of a SubjectPublicKeyInfo into the right-aligned
payload of its `BIT STRING` public key (`asn1.Unmarshal` followed by
`RightAlign` in `common.HashNameAndPKI`); `none` models a decode error. -/
abbrev SpkiDecode := Bytes → Option Bytes

/-- Big-endian base-256 digits of `n`, with enough fuel (structural
recursion on the fuel keeps the definition kernel-evaluable; `fuel = n`
always suffices since each step divides by 256). -/
def natBytesAux : Nat → Nat → Bytes
  | 0, _ => []
  | fuel + 1, n => if n = 0 then [] else natBytesAux fuel (n / 256) ++ [n % 256]

/-- Big-endian minimal byte encoding of a natural number, the value of
`math/big.Int.Bytes()` for non-negative integers: empty for zero. -/
def natBytes (n : Nat) : Bytes := natBytesAux n n

/-- `serial.Bytes()` for a `big.Int` serial number: the big-endian bytes of
the absolute value. -/
def serialBytes (serial : Int) : Bytes := natBytes serial.natAbs

/-! ## `common.HashNameAndPKI` (src/common/common.go lines 105-119) -/

/-- `HashNameAndPKI(h, name, pki)`: hashes the raw subject, then decodes
the SPKI and hashes the right-aligned public-key bit string; an ASN.1
decode error aborts with no hashes. -/
def hashNameAndPKI (h : HashFn) (decode : SpkiDecode) (name pki : Bytes) :
    Option (Bytes × Bytes) :=
  match decode pki with
  | none => none
  | some bits => some (h name, h bits)

/-! ## Entry and request keys (src/unnamed/part_004 lines 342-368) -/

/-- `hashEntry(h, name, pkiBytes, serial)`: the 32-byte cache key of an
entry under hash algorithm `h`,
`SHA-256(h(name) ‖ h(publicKeyBits) ‖ SHA-256(serial.Bytes()))`;
fails when the SPKI does not decode. -/
def hashEntry (sha256 : HashFn) (h : HashFn) (decode : SpkiDecode)
    (name pkiBytes : Bytes) (serial : Int) : Option Bytes :=
  match hashNameAndPKI h decode name pkiBytes with
  | none => none
  | some (issuerNameHash, issuerKeyHash) =>
      some (sha256 (issuerNameHash ++ issuerKeyHash ++ sha256 (serialBytes serial)))

/-- A parsed wire OCSP request: the issuer name hash, the issuer key hash
(both already computed by the client under its chosen algorithm) and the
serial number. -/
structure OcspRequest where
  issuerNameHash : Bytes
  issuerKeyHash : Bytes
  serialNumber : Int
  deriving DecidableEq

/-- `hashRequest(request)`: the 32-byte lookup key of a wire request,
`SHA-256(nameHash ‖ keyHash ‖ SHA-256(serial.Bytes()))`. -/
def hashRequest (sha256 : HashFn) (request : OcspRequest) : Bytes :=
  sha256 (request.issuerNameHash ++ request.issuerKeyHash ++
    sha256 (serialBytes request.serialNumber))

/-! ## `ocsp.VerifyResponse` (src/ocsp/ocsp.go lines 51-65) -/

/-- A parsed OCSP response: the fields `VerifyResponse` and the refresh
path inspect. `status` is the OCSP response status
(0 = Success/Good per `ocsp.Success`). -/
structure OcspResponse where
  status : Int
  serialNumber : Int
  thisUpdate : Int
  nextUpdate : Int
  deriving DecidableEq

/-- The outcome of `VerifyResponse`: `ok` for a nil error, otherwise which
of the four checks fired first. -/
inductive VerifyResult where
  | ok
  | thisUpdateInFuture
  | stale
  | malformed
  | serialMismatch
  deriving DecidableEq

/-- `VerifyResponse(now, serial, resp)`: rejects a response whose
`ThisUpdate` is in the future, whose `NextUpdate` is in the past, whose
window is inverted, or whose serial differs from the expected one. -/
def verifyResponse (now : Int) (serial : Int) (resp : OcspResponse) : VerifyResult :=
  if now < resp.thisUpdate then .thisUpdateInFuture
  else if resp.nextUpdate < now then .stale
  else if resp.nextUpdate < resp.thisUpdate then .malformed
  else if serial ≠ resp.serialNumber then .serialMismatch
  else .ok

/-! ## Go maps
A Go map is a partial function; `delete` and indexing never fail. -/

/-- A Go map from `κ` to `α`. -/
def MapGo (κ α : Type) := κ → Option α

/-- The empty map. -/
def mapEmpty {κ α : Type} : MapGo κ α := fun _ => none

/-- `m[k] = v`. -/
def mapUpd {κ α : Type} [DecidableEq κ] (m : MapGo κ α) (k : κ) (v : α) : MapGo κ α :=
  fun q => if q = k then some v else m q

/-- `delete(m, k)`. -/
def mapDel {κ α : Type} [DecidableEq κ] (m : MapGo κ α) (k : κ) : MapGo κ α :=
  fun q => if q = k then none else m q

/-- `for _, k := range ks { m[k] = v }`. -/
def mapUpdAll {κ α : Type} [DecidableEq κ] (m : MapGo κ α) (ks : List κ) (v : α) : MapGo κ α :=
  ks.foldl (fun m k => mapUpd m k v) m

/-- `for _, k := range ks { delete(m, k) }`. -/
def mapDelAll {κ α : Type} [DecidableEq κ] (m : MapGo κ α) (ks : List κ) : MapGo κ α :=
  ks.foldl mapDel m

/-! ## Cache-Control parsing (src/ocsp/ocsp.go lines 80-89) -/

/-- `strconv.Atoi`: an optional sign followed by decimal digits; `none`
models the error return. -/
def atoi (s : String) : Option Int :=
  if s.startsWith "+" then (s.drop 1).toNat?.map Int.ofNat else s.toInt?

/-- `parseCacheControl(h)`: strip all spaces, split on `,`, and keep the
value of the last `max-age=` directive (`0` when absent or unparsable,
matching `maxAge, _ = strconv.Atoi(p[8:])`). -/
def parseCacheControl (h : String) : Int :=
  ((h.replace " " "").splitOn ",").foldl
    (fun maxAge p => if p.startsWith "max-age=" then (atoi (p.drop 8)).getD 0 else maxAge) 0

/-! ## The fetch loop (src/ocsp/ocsp.go lines 76-160)

`Fetch` performs HTTP I/O; the embedding feeds it the environment's
answers as data: a list of per-attempt outcomes (`none` is a
`client.Do` network error), and the loop ends with the context's error
when the outcomes are exhausted (the backoff/ctx race fires for the
context). `ocsp.ParseResponse` is a library primitive and enters as a
function parameter. -/

/-- The environment's answer to one HTTP request of the fetch loop. -/
structure HttpResponse where
  statusCode : Int
  eTag : String
  cacheControl : String
  /-- The `Retry-After` header; `none` models an absent or empty header. -/
  retryAfter : Option String
  /-- The response body; `none` models an `ioutil.ReadAll` failure. -/
  body : Option Bytes
  deriving DecidableEq

/-- `ocsp.ParseResponse(body, issuer)` for a fixed issuer, as a library
primitive: `none` is a parse (or signature) error. -/
abbrev ParseOcsp := Bytes → Option OcspResponse

/-- What `Fetch` returns: the context's error, or the 5-tuple
`(resp, body, eTag, maxAge, nil)`. -/
inductive FetchResult where
  | ctxDone
  | success (resp : Option OcspResponse) (body : Option Bytes) (eTag : String) (maxAge : Int)
  deriving DecidableEq

/-- One iteration of the fetch loop either returns or backs off
(`backoffSeconds`) and retries. -/
inductive StepOutcome where
  | done (r : FetchResult)
  | retry (backoffSeconds : Int)
  deriving DecidableEq

/-- The body of one iteration of `Fetch`'s `for` loop, after the
backoff/ctx race: status gate (only 200 and 304 pass, a 503 honours a
parseable `Retry-After`), body read, OCSP parse, and the check that the
parsed status is `ocsp.Success` (0). -/
def fetchStep (parse : ParseOcsp) (o : Option HttpResponse) : StepOutcome :=
  match o with
  | none => .retry 10
  | some resp =>
    if resp.statusCode ≠ 200 ∧ resp.statusCode ≠ 304 then
      .retry
        (if resp.statusCode = 503 then
          match resp.retryAfter with
          | some retryAfter =>
            match atoi retryAfter with
            | some seconds => seconds
            | none => 10
          | none => 10
        else 10)
    else
      match resp.body with
      | none => .retry 10
      | some body =>
        match parse body with
        | none => .retry 10
        | some ocspResp =>
          if ocspResp.status = 0 then
            .done (.success (some ocspResp) (some body) resp.eTag
              (parseCacheControl resp.cacheControl))
          else .retry 10

/-- `randomResponder(responders)`: `responders[mrand.Intn(len(responders))]`
for a pseudorandom draw (the daemon only calls it with a populated list). -/
def randomResponder (responders : List String) (draw : Nat) : String :=
  responders.getD (draw % responders.length) ""

/-- The fetch loop against one fixed responder, also recording which
responder each performed attempt contacted; exhausting the outcome list
models the context firing during the backoff race. -/
def fetchFrom (parse : ParseOcsp) (responder : String) :
    List (Option HttpResponse) → FetchResult × List String
  | [] => (.ctxDone, [])
  | o :: rest =>
    match fetchStep parse o with
    | .done r => (r, [responder])
    | .retry _ =>
      let p := fetchFrom parse responder rest
      (p.1, responder :: p.2)

/-- `Fetch(ctx, responders, client, request, etag, issuer)`: the responder
is drawn once, before the loop (src/ocsp/ocsp.go line 92), from the
pseudorandom stream `rand`; every attempt then contacts it. -/
def fetchGo (parse : ParseOcsp) (responders : List String) (rand : Nat → Nat)
    (outcomes : List (Option HttpResponse)) : FetchResult × List String :=
  fetchFrom parse (randomResponder responders (rand 0)) outcomes

/-- Modelled from the spec: "Responder selection: uniform random pick from
the responder list for each attempt" — attempt `i` would use the `i`-th
draw of the pseudorandom stream. Stated for comparison with `fetchGo`,
which draws once. -/
def specAttemptResponder (responders : List String) (rand : Nat → Nat) (i : Nat) : String :=
  randomResponder responders (rand i)

/-! ## Cache entries (src/unnamed/part_004 lines 110-306)

The `Entry` struct's refresh-state fields; the identity fields the Entry
Cache keys on are modelled separately as `CacheEntry` below. -/

/-- The mutable refresh state of a cache entry. -/
structure Entry where
  serial : Int
  eTag : String
  /-- Duration in nanoseconds. -/
  maxAge : Int
  lastSync : Int
  /-- `nil` ≠ present: `timeToUpdate` checks `e.response == nil`. -/
  response : Option Bytes
  thisUpdate : Int
  nextUpdate : Int
  deriving DecidableEq

/-- `time.Second` in nanoseconds. -/
def nsPerSecond : Int := 1000000000

/-- `mrand.Intn(n)`: panics (`none`) for `n ≤ 0`, else a uniform draw in
`[0, n)` — the pseudorandom stream's value reduced mod `n`. -/
def intn (n : Int) (draw : Nat) : Option Int :=
  if n ≤ 0 then none else some ((draw : Int) % n)

/-- `windowSize := e.nextUpdate.Sub(e.thisUpdate) / 4`: Go `Duration`
division truncates toward zero. -/
def windowSizeOf (e : Entry) : Int := Int.tdiv (e.nextUpdate - e.thisUpdate) 4

/-- `updateWindowStarts := e.nextUpdate.Add(-windowSize)`. -/
def updateWindowStartsOf (e : Entry) : Int := e.nextUpdate - windowSizeOf e

/-- `int(windowSize.Seconds())`: whole seconds of the window, truncated
toward zero (the `float64` round-trip is exact at these magnitudes). -/
def windowSecondsOf (e : Entry) : Int := Int.tdiv (windowSizeOf e) nsPerSecond

/-- `Entry.timeToUpdate()` (src/unnamed/part_004 lines 270-306): empty
response, staleness and an expired max-age force a refresh; before the
last quarter of the validity window nothing happens; inside it a random
whole-second offset into the window is drawn on each evaluation. `none`
models the `mrand.Intn` panic on a non-positive argument. -/
def timeToUpdate (e : Entry) (now : Int) (draw : Nat) : Option Bool :=
  if e.response = none then some true
  else if e.nextUpdate < now then some true
  else if 0 < e.maxAge ∧ e.lastSync + e.maxAge < now then some true
  else if now < updateWindowStartsOf e then some false
  else
    match intn (windowSecondsOf e) draw with
    | none => none
    | some k =>
      if updateWindowStartsOf e + nsPerSecond * k < now then some true else some false

/-- `Entry.updateResponse(eTag, maxAge, resp, respBytes, stableBackings)`
(src/unnamed/part_004 lines 201-216): always refreshes `eTag`, `maxAge`
(seconds → duration) and `lastSync`; only with a non-nil parsed response
does it swap the body and window and fan the bytes out to every stable
backing. The second component lists the bytes written per backing. -/
def updateResponse (e : Entry) (now : Int) (eTag : String) (maxAge : Int)
    (resp : Option (OcspResponse × Bytes)) (nBackings : Nat) : Entry × List Bytes :=
  let e1 := { e with eTag := eTag, maxAge := nsPerSecond * maxAge, lastSync := now }
  match resp with
  | none => (e1, [])
  | some (r, respBytes) =>
    ({ e1 with response := some respBytes
               nextUpdate := r.nextUpdate
               thisUpdate := r.thisUpdate },
      List.replicate nBackings respBytes)

/-- The successful 5-tuple a fetch hands to `refreshResponse`. -/
structure FetchSuccess where
  resp : Option OcspResponse
  /-- `nil` and empty coincide under `bytes.Compare`. -/
  respBytes : Bytes
  eTag : String
  maxAge : Int
  deriving DecidableEq

/-- What `Entry.refreshResponse` does after a fetch: `fetchFailed` and
`verifyFailed` propagate the error with the entry untouched. -/
inductive RefreshOutcome where
  | fetchFailed
  | verifyFailed (r : VerifyResult)
  | done (e : Entry) (writes : List Bytes)
  deriving DecidableEq

/-- The tail of `Entry.refreshResponse`: `resp == nil ||
bytes.Compare(respBytes, e.response) == 0` keeps the body (no disk
fan-out), otherwise the verified response is swapped in and written
through. -/
def refreshSwap (e : Entry) (now : Int) (nBackings : Nat) (f : FetchSuccess) : RefreshOutcome :=
  if f.resp = none ∨ f.respBytes = e.response.getD [] then
    let p := updateResponse e now f.eTag f.maxAge none nBackings
    .done p.1 p.2
  else
    match f.resp with
    | none => let p := updateResponse e now f.eTag f.maxAge none nBackings
              .done p.1 p.2
    | some r =>
      let p := updateResponse e now f.eTag f.maxAge (some (r, f.respBytes)) nBackings
      .done p.1 p.2

/-- `Entry.refreshResponse(ctx, stableBackings, client)`
(src/unnamed/part_004 lines 220-256) with the fetch's answer supplied as
data (`none` is a fetch error): no-op unless `timeToUpdate`, verify a
non-nil parsed response against the clock and serial before anything is
stored, then `refreshSwap`. The outer `none` is the `mrand.Intn` panic
inside `timeToUpdate`. -/
def refreshResponse (e : Entry) (now : Int) (draw : Nat) (nBackings : Nat)
    (fetched : Option FetchSuccess) : Option RefreshOutcome :=
  match timeToUpdate e now draw with
  | none => none
  | some false => some (.done e [])
  | some true =>
    match fetched with
    | none => some .fetchFailed
    | some f =>
      match f.resp with
      | some r =>
        if verifyResponse now e.serial r = .ok then some (refreshSwap e now nBackings f)
        else some (.verifyFailed (verifyResponse now e.serial r))
      | none => some (refreshSwap e now nBackings f)

/-! ## Serving (src/unnamed/part_016 lines 85-97) -/

/-- The observable outcome of `ServeHTTP` once the lookup has found an
entry: either the handler panics before writing (`died`) or the cached
bytes go to the client. -/
inductive ServeOutcome where
  | died
  | served (body : Bytes)
  deriving DecidableEq

/-- The found-entry tail of `(*stapled).ServeHTTP`: a response past its
`NextUpdate` is served only under `dontDieOnStaleResponse`; otherwise the
handler panics before `resp.Write`. -/
def serveFound (dontDieOnStaleResponse : Bool) (now : Int) (e : Entry) : ServeOutcome :=
  if e.nextUpdate < now ∧ dontDieOnStaleResponse = false then .died
  else .served (e.response.getD [])

/-! ## The Entry Cache (src/unnamed/part_004 lines 310-529)

`EntryCache.add`, `addSingle` and `Remove` touch only the entry's name and
the identity fields `allHashes` reads, so a cache entry is modelled by
those fields. -/

/-- The identity of a cache entry: its name and the fields its four
lookup keys are computed from. -/
structure CacheEntry where
  name : String
  rawSubject : Bytes
  rawSPKI : Bytes
  serial : Int
  deriving DecidableEq

/-- `allHashes(e, supportedHashes)` (src/unnamed/part_004 lines 351-363):
one `hashEntry` key per configured hash algorithm; the first failure
aborts. -/
def allHashes (sha256 : HashFn) (decode : SpkiDecode) (supportedHashes : List HashFn)
    (e : CacheEntry) : Option (List Bytes) :=
  supportedHashes.mapM (fun h => hashEntry sha256 h decode e.rawSubject e.rawSPKI e.serial)

/-- The request keys of an entry (empty when the hash computation fails). -/
def keysOf (sha256 : HashFn) (decode : SpkiDecode) (supportedHashes : List HashFn)
    (e : CacheEntry) : List Bytes :=
  (allHashes sha256 decode supportedHashes e).getD []

/-- The two maps of `EntryCache`: `entries` by name, `lookupMap` by
request key. -/
structure CacheState where
  entries : MapGo String CacheEntry
  lookupMap : MapGo Bytes CacheEntry

/-- The cache with no entries. -/
def emptyCache : CacheState := ⟨mapEmpty, mapEmpty⟩

/-- `EntryCache.add(e)` (src/unnamed/part_004 lines 404-422): on a hash
error nothing changes (the error returns); otherwise the entry is stored
under its name — overwriting a present entry after a logged warning — and
under every computed key. -/
def cacheAdd (sha256 : HashFn) (decode : SpkiDecode) (supportedHashes : List HashFn)
    (s : CacheState) (e : CacheEntry) : CacheState × Bool :=
  match allHashes sha256 decode supportedHashes e with
  | none => (s, false)
  | some hashes =>
    (⟨mapUpd s.entries e.name e, mapUpdAll s.lookupMap hashes e⟩, true)

/-- `EntryCache.addSingle(e, key)` (src/unnamed/part_004 lines 390-400):
does nothing when the name is taken; otherwise installs the name and the
one supplied key. -/
def cacheAddSingle (s : CacheState) (e : CacheEntry) (key : Bytes) : CacheState :=
  match s.entries e.name with
  | some _ => s
  | none => ⟨mapUpd s.entries e.name e, mapUpd s.lookupMap key e⟩

/-- `EntryCache.Remove(name)` (src/unnamed/part_004 lines 511-529): a
missing name is an error; otherwise the name is deleted, the keys are
recomputed and deleted — with the source's quirk that a hash error aborts
after the name is already gone. -/
def cacheRemove (sha256 : HashFn) (decode : SpkiDecode) (supportedHashes : List HashFn)
    (s : CacheState) (name : String) : CacheState × Bool :=
  match s.entries name with
  | none => (s, false)
  | some e =>
    let s1 : CacheState := ⟨mapDel s.entries name, s.lookupMap⟩
    match allHashes sha256 decode supportedHashes e with
    | none => (s1, false)
    | some hashes => (⟨s1.entries, mapDelAll s1.lookupMap hashes⟩, true)

/-- One public mutating operation of the Entry Cache. -/
inductive CacheOp where
  | add (e : CacheEntry)
  | addSingle (e : CacheEntry) (key : Bytes)
  | remove (name : String)
  deriving DecidableEq

/-- Apply one operation (the Go callers ignore the error for the purpose
of the resulting maps). -/
def applyOp (sha256 : HashFn) (decode : SpkiDecode) (supportedHashes : List HashFn)
    (s : CacheState) : CacheOp → CacheState
  | .add e => (cacheAdd sha256 decode supportedHashes s e).1
  | .addSingle e key => cacheAddSingle s e key
  | .remove name => (cacheRemove sha256 decode supportedHashes s name).1

/-- Run a sequence of cache operations. -/
def runOps (sha256 : HashFn) (decode : SpkiDecode) (supportedHashes : List HashFn)
    (s : CacheState) : List CacheOp → CacheState
  | [] => s
  | op :: ops => runOps sha256 decode supportedHashes
      (applyOp sha256 decode supportedHashes s op) ops

/-- The entries the `add` operations of a trace insert, in order. -/
def addsOf : List CacheOp → List CacheEntry
  | [] => []
  | .add e :: ops => e :: addsOf ops
  | _ :: ops => addsOf ops

/-- No `addSingle` occurs in the trace. -/
def noAddSingle (ops : List CacheOp) : Bool :=
  ops.all fun op => match op with | .addSingle _ _ => false | _ => true

/-- Every key of `a` misses every key of `b`. -/
def keysDisjoint (sha256 : HashFn) (decode : SpkiDecode) (supportedHashes : List HashFn)
    (a b : CacheEntry) : Bool :=
  (keysOf sha256 decode supportedHashes a).all
    fun k => !((keysOf sha256 decode supportedHashes b).contains k)

/-- Two entries that may coexist: distinct names and disjoint key sets. -/
def entryCompat (sha256 : HashFn) (decode : SpkiDecode) (supportedHashes : List HashFn)
    (a b : CacheEntry) : Prop :=
  a.name ≠ b.name ∧
    keysDisjoint sha256 decode supportedHashes a b = true ∧
    keysDisjoint sha256 decode supportedHashes b a = true

/-- The key/name coherence invariant of the two maps, relative to the set
of entries ever added: every stored entry sits under its own name and is
one of `added`; every key binding points at a stored entry through one of
its keys; a stored entry is reachable under all of its keys. -/
def CacheInv (sha256 : HashFn) (decode : SpkiDecode) (supportedHashes : List HashFn)
    (added : List CacheEntry) (s : CacheState) : Prop :=
  (∀ n E, s.entries n = some E → E.name = n ∧ E ∈ added) ∧
  (∀ K E, s.lookupMap K = some E →
    s.entries E.name = some E ∧ K ∈ keysOf sha256 decode supportedHashes E) ∧
  (∀ E, s.entries E.name = some E →
    ∀ K ∈ keysOf sha256 decode supportedHashes E, s.lookupMap K = some E)

/-! ## The Issuer Cache (src/mcache/issuerCache.go) -/

/-- An issuer certificate's fields the issuer cache reads. -/
structure Issuer where
  rawSubject : Bytes
  rawSPKI : Bytes
  subjectKeyId : Bytes
  authorityKeyId : Bytes
  deriving DecidableEq

/-- The two maps of `issuerCache`. -/
structure IssuerCache where
  subjectPlusSKID : MapGo Bytes Issuer
  subjectPlusSPKI : MapGo Bytes Issuer

/-- The issuer cache with no issuers. -/
def emptyIssuerCache : IssuerCache := ⟨mapEmpty, mapEmpty⟩

/-- `allIssuerHashes(i)`: `SHA-256(H(rawSubject) ‖ H(publicKeyBits))` per
supported hash algorithm `H` (the source iterates SHA-1/256/384/512);
the first failure aborts. -/
def allIssuerHashes (sha256 : HashFn) (decode : SpkiDecode) (supportedHashes : List HashFn)
    (i : Issuer) : Option (List Bytes) :=
  supportedHashes.mapM fun h =>
    (hashNameAndPKI h decode i.rawSubject i.rawSPKI).map fun p => sha256 (p.1 ++ p.2)

/-- `issuerCache.add(issuer)`: on a hash error nothing is inserted;
otherwise one key `SHA-256(rawSubject ‖ SubjectKeyId)` goes into
`subjectPlusSKID` and the per-algorithm keys into `subjectPlusSPKI`. -/
def issuerAdd (sha256 : HashFn) (decode : SpkiDecode) (supportedHashes : List HashFn)
    (c : IssuerCache) (issuer : Issuer) : IssuerCache × Bool :=
  let spskid := sha256 (issuer.rawSubject ++ issuer.subjectKeyId)
  match allIssuerHashes sha256 decode supportedHashes issuer with
  | none => (c, false)
  | some otherHashes =>
    (⟨mapUpd c.subjectPlusSKID spskid issuer,
      mapUpdAll c.subjectPlusSPKI otherHashes issuer⟩, true)

/-- `issuerCache.getFromCertificate(issuerSubject, akid)`: one lookup of
`SHA-256(issuerSubject ‖ akid)` in `subjectPlusSKID`. -/
def getFromCertificate (sha256 : HashFn) (c : IssuerCache) (issuerSubject akid : Bytes) :
    Option Issuer :=
  c.subjectPlusSKID (sha256 (issuerSubject ++ akid))

/-! ## Concrete instantiations
Toy hash primitives used by witnesses and counterexamples: an injective
tagging function stands in for each hash algorithm. -/

/-- The tagging function `b ↦ t :: b`: injective, so collisions cannot
mask a key mismatch. -/
def tagHash (t : Nat) : HashFn := fun b => t :: b

/-- A SPKI decode that yields the bytes unchanged. -/
def idDecode : SpkiDecode := fun b => some b

/-- Four toy hash algorithms standing in for SHA-1/256/384/512. -/
def toySupportedHashes : List HashFn := [tagHash 1, tagHash 2, tagHash 3, tagHash 4]

/-- A toy outer SHA-256. -/
def toySha : HashFn := tagHash 9

/-! ## Map lemmas -/

theorem mapUpd_apply {κ α : Type} [DecidableEq κ] (m : MapGo κ α) (k : κ) (v : α) (q : κ) :
    mapUpd m k v q = if q = k then some v else m q := rfl

theorem mapDel_apply {κ α : Type} [DecidableEq κ] (m : MapGo κ α) (k : κ) (q : κ) :
    mapDel m k q = if q = k then none else m q := rfl

theorem mapUpdAll_apply {κ α : Type} [DecidableEq κ] (m : MapGo κ α) (ks : List κ) (v : α)
    (q : κ) : mapUpdAll m ks v q = if q ∈ ks then some v else m q := by
  induction ks generalizing m with
  | nil => simp [mapUpdAll]
  | cons k ks ih =>
    show mapUpdAll (mapUpd m k v) ks v q = _
    rw [ih]
    by_cases hks : q ∈ ks <;> by_cases hk : q = k <;>
      simp [hks, hk, mapUpd_apply, List.mem_cons]

theorem mapDelAll_apply {κ α : Type} [DecidableEq κ] (m : MapGo κ α) (ks : List κ) (q : κ) :
    mapDelAll m ks q = if q ∈ ks then none else m q := by
  induction ks generalizing m with
  | nil => simp [mapDelAll]
  | cons k ks ih =>
    show mapDelAll (mapDel m k) ks q = _
    rw [ih]
    by_cases hks : q ∈ ks <;> by_cases hk : q = k <;>
      simp [hks, hk, mapDel_apply, List.mem_cons]

/-! ## C1 — entry keys and request keys agree -/

/-- Claim C1: for every issuer, serial and hash algorithm `h` whose SPKI
decode succeeds, the entry key
`SHA-256(h(rawSubject) ‖ h(publicKeyBits) ‖ SHA-256(serial.Bytes()))` of
`hashEntry` equals `hashRequest` of the wire request carrying
`nameHash = h(rawSubject)` and `keyHash = h(publicKeyBits)`. -/
theorem entry_key_matches_request_key (sha256 h : HashFn) (decode : SpkiDecode)
    (rawSubject rawSPKI publicKeyBits : Bytes) (serial : Int)
    (hdecode : decode rawSPKI = some publicKeyBits) :
    hashEntry sha256 h decode rawSubject rawSPKI serial =
      some (hashRequest sha256 ⟨h rawSubject, h publicKeyBits, serial⟩) := by
  simp [hashEntry, hashNameAndPKI, hdecode, hashRequest]

/-- Witness for C1 at a concrete issuer, serial and toy hash functions. -/
theorem entry_key_matches_request_key_witness :
    hashEntry toySha (tagHash 1) idDecode [5] [6] 7 =
      some (hashRequest toySha ⟨tagHash 1 [5], tagHash 1 [6], 7⟩) :=
  entry_key_matches_request_key toySha (tagHash 1) idDecode [5] [6] [6] 7 rfl

/-! ## C2 — VerifyResponse rejects exactly the four bad shapes -/

/-- Claim C2: `VerifyResponse(now, serial, resp)` returns an error iff
the response's `ThisUpdate` is after `now`, its `NextUpdate` is before
`now`, its `ThisUpdate` is after its `NextUpdate`, or its serial differs
from the expected serial; otherwise it returns ok. -/
theorem verifyResponse_error_iff (now serial : Int) (resp : OcspResponse) :
    verifyResponse now serial resp ≠ .ok ↔
      (now < resp.thisUpdate ∨ resp.nextUpdate < now ∨
        resp.nextUpdate < resp.thisUpdate ∨ serial ≠ resp.serialNumber) := by
  unfold verifyResponse
  split_ifs with h1 h2 h3 h4 <;> simp_all

/-! ## C3 — the stale-serving policy -/

/-- Claim C3: when a serve request finds an entry whose `nextUpdate` has
passed, the handler panics before writing (so the stale bytes never reach
the client) unless `dontDieOnStaleResponse` is set, in which case the
stale bytes are written. -/
theorem stale_serve_policy (dontDieOnStaleResponse : Bool) (now : Int) (e : Entry)
    (hstale : e.nextUpdate < now) :
    (dontDieOnStaleResponse = false → serveFound dontDieOnStaleResponse now e = .died) ∧
    (dontDieOnStaleResponse = true →
      serveFound dontDieOnStaleResponse now e = .served (e.response.getD [])) := by
  constructor <;> intro hflag <;> simp [serveFound, hflag, hstale]

/-- Witness for C3: a concrete entry one tick past its `nextUpdate`. -/
theorem stale_serve_policy_witness :
    serveFound false 10 ⟨1, "", 0, 0, some [1, 2], 0, 5⟩ = .died ∧
    serveFound true 10 ⟨1, "", 0, 0, some [1, 2], 0, 5⟩ = .served [1, 2] :=
  ⟨(stale_serve_policy false 10 ⟨1, "", 0, 0, some [1, 2], 0, 5⟩ (by decide)).1 rfl,
    (stale_serve_policy true 10 ⟨1, "", 0, 0, some [1, 2], 0, 5⟩ (by decide)).2 rfl⟩

/-! ## C5 — what the fetch loop actually does on a 304

`Fetch`'s status gate lets a 304 through to the body read and
`ocsp.ParseResponse`; a 304 carries no body, the parse fails, and the
loop backs off 10s and retries — no code path returns the claimed
`(nil, nil, newETag, newMaxAge, nil)` tuple. Evaluated at the failing
input: one 304 answer (ETag "v2", `Cache-Control: max-age=600`, empty
body) against a parser that rejects the empty body. -/

/-- Claim C5 at its failing input: the 304 iteration yields a 10-second
backoff retry, and the whole fetch ends with the context's error after
retrying the same responder — not with the success-unchanged tuple. -/
theorem fetch_304_retries_not_success :
    fetchStep (fun b => if b = [] then none else some ⟨0, 0, 0, 0⟩)
        (some ⟨304, "v2", "max-age=600", none, some []⟩) = .retry 10 ∧
    fetchGo (fun b => if b = [] then none else some ⟨0, 0, 0, 0⟩) ["http://r"] (fun _ => 0)
        [some ⟨304, "v2", "max-age=600", none, some []⟩] = (.ctxDone, ["http://r"]) ∧
    fetchGo (fun b => if b = [] then none else some ⟨0, 0, 0, 0⟩) ["http://r"] (fun _ => 0)
        (List.replicate 2 (some ⟨304, "v2", "max-age=600", none, some []⟩)) =
      (.ctxDone, ["http://r", "http://r"]) := by
  refine ⟨by decide, by decide, by decide⟩

/-! ## C9 — the issuer cache keys `bySubjectAkid` on the SubjectKeyId -/

/-- Claim C9 is false as stated: `add` keys the issuer under
`SHA-256(rawSubject ‖ SubjectKeyId)`, so the claimed lookup under the
issuer's own `authorityKeyId` finds nothing for an issuer whose AKID
([4]) differs from its SKID ([3]). -/
theorem issuer_akid_lookup_counterexample :
    getFromCertificate toySha
        (issuerAdd toySha idDecode toySupportedHashes emptyIssuerCache ⟨[1], [2], [3], [4]⟩).1
        [1] [4] = none ∧
    ¬ getFromCertificate toySha
        (issuerAdd toySha idDecode toySupportedHashes emptyIssuerCache ⟨[1], [2], [3], [4]⟩).1
        [1] [4] = some ⟨[1], [2], [3], [4]⟩ := by
  refine ⟨by decide, by decide⟩

/-- Claim C9 as amended: `add(issuer)` inserts the issuer into
`bySubjectAkid` under the single key
`SHA-256(rawSubject ‖ issuer.subjectKeyId)`, so
`getFromCertificate(issuer.rawSubject, issuer.subjectKeyId)` — the lookup
a child certificate's AKID performs — returns that issuer. -/
theorem issuerAdd_skid_lookup (sha256 : HashFn) (decode : SpkiDecode)
    (supportedHashes : List HashFn) (c : IssuerCache) (issuer : Issuer)
    (hsome : (allIssuerHashes sha256 decode supportedHashes issuer).isSome = true) :
    getFromCertificate sha256 (issuerAdd sha256 decode supportedHashes c issuer).1
      issuer.rawSubject issuer.subjectKeyId = some issuer := by
  obtain ⟨hs, hhs⟩ := Option.isSome_iff_exists.mp hsome
  simp [issuerAdd, hhs, getFromCertificate, mapUpd]

/-- Witness for the amended C9 at a concrete issuer and toy hashes. -/
theorem issuerAdd_skid_lookup_witness :
    getFromCertificate toySha
        (issuerAdd toySha idDecode toySupportedHashes emptyIssuerCache ⟨[1], [2], [3], [4]⟩).1
        [1] [3] = some ⟨[1], [2], [3], [4]⟩ :=
  issuerAdd_skid_lookup toySha idDecode toySupportedHashes emptyIssuerCache
    ⟨[1], [2], [3], [4]⟩ (by decide)

/-! ## C10 — the in-window draw panics on short validity windows -/

/-- Claim C10's failing input evaluated: an entry with a two-second
validity window (`nextUpdate > thisUpdate` holds), a non-empty response
and no max-age, polled right at `nextUpdate`, reaches the random draw
with `int(windowSize.Seconds()) = 0` — `mrand.Intn(0)` panics instead of
returning a boolean. -/
theorem timeToUpdate_short_window_panic :
    timeToUpdate ⟨1, "", 0, 0, some [9], 0, 2000000000⟩ 2000000000 0 = none := by decide

/-! ## C6 — the refresh-eligibility decision -/

/-- Claim C6: `timeToUpdate` returns true on an empty response; else true
when the response is stale; else true when a positive max-age has
expired; else false before the update window opens; and otherwise draws a
random whole-second instant `t` in `[windowStart, nextUpdate)` on each
evaluation (well-defined whenever the window holds at least one whole
second) and returns true exactly when `t < now`. -/
theorem timeToUpdate_cases (e : Entry) (now : Int) (draw : Nat) :
    (e.response = none → timeToUpdate e now draw = some true) ∧
    (e.response ≠ none → e.nextUpdate < now → timeToUpdate e now draw = some true) ∧
    (e.response ≠ none → ¬ e.nextUpdate < now →
      0 < e.maxAge → e.lastSync + e.maxAge < now → timeToUpdate e now draw = some true) ∧
    (e.response ≠ none → ¬ e.nextUpdate < now →
      ¬ (0 < e.maxAge ∧ e.lastSync + e.maxAge < now) →
      now < updateWindowStartsOf e → timeToUpdate e now draw = some false) ∧
    (e.response ≠ none → ¬ e.nextUpdate < now →
      ¬ (0 < e.maxAge ∧ e.lastSync + e.maxAge < now) →
      ¬ now < updateWindowStartsOf e → 0 < windowSecondsOf e →
      timeToUpdate e now draw =
        some (decide (updateWindowStartsOf e +
          nsPerSecond * ((draw : Int) % windowSecondsOf e) < now)) ∧
      updateWindowStartsOf e ≤
        updateWindowStartsOf e + nsPerSecond * ((draw : Int) % windowSecondsOf e) ∧
      updateWindowStartsOf e + nsPerSecond * ((draw : Int) % windowSecondsOf e) <
        e.nextUpdate) := by
  refine ⟨?_, ?_, ?_, ?_, ?_⟩
  · intro h1
    simp [timeToUpdate, h1]
  · intro h1 h2
    simp [timeToUpdate, h1, h2]
  · intro h1 h2 h3 h4
    simp [timeToUpdate, h1, h2, h3, h4]
  · intro h1 h2 h3 h4
    simp [timeToUpdate, h1, h2, h3, h4]
  · intro h1 h2 h3 h4 h5
    have hw : 0 ≤ windowSizeOf e := by
      by_contra hww
      push_neg at hww
      have hnn : 0 ≤ Int.tdiv (-windowSizeOf e) nsPerSecond :=
        Int.tdiv_nonneg (by omega) (by norm_num [nsPerSecond])
      rw [Int.neg_tdiv] at hnn
      have hsec : windowSecondsOf e = Int.tdiv (windowSizeOf e) nsPerSecond := rfl
      omega
    have hse : windowSecondsOf e = windowSizeOf e / nsPerSecond :=
      Int.tdiv_eq_ediv hw (by norm_num [nsPerSecond])
    have hk0 : 0 ≤ (draw : Int) % windowSecondsOf e := Int.emod_nonneg _ (by omega)
    have hk1 : (draw : Int) % windowSecondsOf e < windowSecondsOf e :=
      Int.emod_lt_of_pos _ h5
    refine ⟨?_, ?_, ?_⟩
    · have hstep : timeToUpdate e now draw =
          if updateWindowStartsOf e +
              nsPerSecond * ((draw : Int) % windowSecondsOf e) < now
          then some true else some false := by
        simp [timeToUpdate, h1, h2, h3, h4, intn, show ¬ windowSecondsOf e ≤ 0 by omega]
      rw [hstep]
      by_cases hcond : updateWindowStartsOf e +
          nsPerSecond * ((draw : Int) % windowSecondsOf e) < now <;> simp [hcond]
    · simp only [nsPerSecond] at hk0 ⊢
      omega
    · have hstart : updateWindowStartsOf e = e.nextUpdate - windowSizeOf e := rfl
      simp only [nsPerSecond] at hk0 hk1 hse ⊢
      omega

/-- Witness for C6: a 40-second validity window polled five seconds
before `nextUpdate`, with the third pseudorandom draw landing two seconds
inside the window. -/
theorem timeToUpdate_cases_witness :
    timeToUpdate ⟨1, "", 0, 0, some [9], 0, 40000000000⟩ 35000000000 3 = some true := by
  have h := (timeToUpdate_cases ⟨1, "", 0, 0, some [9], 0, 40000000000⟩ 35000000000 3).2.2.2.2
  rw [(h (by decide) (by decide) (by decide) (by decide) (by decide)).1]
  decide

/-! ## C7 — a 304 or byte-identical refresh leaves the body alone -/

/-- Claim C7: a refresh that fetched a 304 (`resp = nil`) or a body
byte-identical to the stored one — and whose verification, when a parsed
response is present, passes — updates only `eTag`, `maxAge` and
`lastSync` (to the current clock time); `response`, `thisUpdate` and
`nextUpdate` are untouched and nothing is written to any stable
backing. -/
theorem refresh_unchanged_frame (e : Entry) (now : Int) (draw : Nat) (nBackings : Nat)
    (f : FetchSuccess)
    (htime : timeToUpdate e now draw = some true)
    (hsame : f.resp = none ∨ f.respBytes = e.response.getD [])
    (hverify : ∀ r, f.resp = some r → verifyResponse now e.serial r = .ok) :
    refreshResponse e now draw nBackings (some f) =
      some (.done { e with eTag := f.eTag
                           maxAge := nsPerSecond * f.maxAge
                           lastSync := now } []) := by
  unfold refreshResponse
  rw [htime]
  cases hr : f.resp with
  | none => simp [refreshSwap, hr, updateResponse]
  | some r =>
    have hbytes : f.respBytes = e.response.getD [] := by
      rcases hsame with hn | hb
      · rw [hr] at hn; exact absurd hn (by simp)
      · exact hb
    simp [hverify r hr, refreshSwap, hr, hbytes, updateResponse]

/-- Witness for C7: a stale entry whose fetch came back 304 with a new
ETag and max-age 600s; only `eTag`, `maxAge` and `lastSync` move. -/
theorem refresh_unchanged_frame_witness :
    refreshResponse ⟨5, "old", 0, 0, some [7], 0, 3⟩ 10 0 2 (some ⟨none, [], "v2", 600⟩) =
      some (.done ⟨5, "v2", 600000000000, 10, some [7], 0, 3⟩ []) :=
  refresh_unchanged_frame ⟨5, "old", 0, 0, some [7], 0, 3⟩ 10 0 2 ⟨none, [], "v2", 600⟩
    (by decide) (Or.inl rfl) (fun r hr => nomatch hr)

/-! ## C8 — the responder is drawn once per fetch, not per attempt -/

theorem fetchFrom_attempts (parse : ParseOcsp) (responder : String)
    (outcomes : List (Option HttpResponse)) :
    (fetchFrom parse responder outcomes).2 =
      List.replicate (fetchFrom parse responder outcomes).2.length responder := by
  induction outcomes with
  | nil => rfl
  | cons o rest ih =>
    unfold fetchFrom
    cases fetchStep parse o with
    | done r => rfl
    | retry b =>
      show responder :: (fetchFrom parse responder rest).2 =
        List.replicate (responder :: (fetchFrom parse responder rest).2).length responder
      rw [List.length_cons, List.replicate_succ]
      exact congrArg (responder :: ·) ih

/-- Claim C8 is false as stated: with two responders and the identity
pseudorandom stream, both attempts of one fetch contact responder "a",
while per-attempt draws (the spec's words, `specAttemptResponder`) would
contact "a" then "b". -/
theorem fetch_responder_per_attempt_counterexample :
    (fetchGo (fun _ => none) ["a", "b"] (fun i => i) [none, none]).2 = ["a", "a"] ∧
    (List.range 2).map (specAttemptResponder ["a", "b"] (fun i => i)) = ["a", "b"] ∧
    ¬ (["a", "a"] : List String) = ["a", "b"] := by
  refine ⟨by decide, by decide, by decide⟩

/-- Claim C8 as amended: the responder is drawn uniformly at random once
per `Fetch` invocation, before the retry loop; every attempt of that
invocation — retries included — contacts that same responder
(`responders[rand(0) mod len]`). -/
theorem fetch_responder_fixed (parse : ParseOcsp) (responders : List String)
    (rand : Nat → Nat) (outcomes : List (Option HttpResponse)) :
    (fetchGo parse responders rand outcomes).2 =
      List.replicate (fetchGo parse responders rand outcomes).2.length
        (randomResponder responders (rand 0)) :=
  fetchFrom_attempts parse (randomResponder responders (rand 0)) outcomes

/-! ## C4 — the two-map coherence of the Entry Cache -/

theorem keysOf_eq_of_allHashes (sha256 : HashFn) (decode : SpkiDecode)
    (supportedHashes : List HashFn) {e : CacheEntry} {ks : List Bytes}
    (h : allHashes sha256 decode supportedHashes e = some ks) :
    keysOf sha256 decode supportedHashes e = ks := by
  simp [keysOf, h]

theorem keysDisjoint_not_mem (sha256 : HashFn) (decode : SpkiDecode)
    (supportedHashes : List HashFn) {a b : CacheEntry} {K : Bytes}
    (h : keysDisjoint sha256 decode supportedHashes a b = true)
    (hK : K ∈ keysOf sha256 decode supportedHashes a) :
    K ∉ keysOf sha256 decode supportedHashes b := by
  simp only [keysDisjoint, List.all_eq_true] at h
  simpa using h K hK

theorem entryCompat_symmetric (sha256 : HashFn) (decode : SpkiDecode)
    (supportedHashes : List HashFn) :
    Symmetric (entryCompat sha256 decode supportedHashes) :=
  fun _ _ h => ⟨Ne.symm h.1, h.2.2, h.2.1⟩

theorem cacheAdd_entries (sha256 : HashFn) (decode : SpkiDecode)
    (supportedHashes : List HashFn) (s : CacheState) (e : CacheEntry) {ks : List Bytes}
    (hks : allHashes sha256 decode supportedHashes e = some ks) (n : String) :
    (cacheAdd sha256 decode supportedHashes s e).1.entries n =
      if n = e.name then some e else s.entries n := by
  simp [cacheAdd, hks, mapUpd_apply]

theorem cacheAdd_lookup (sha256 : HashFn) (decode : SpkiDecode)
    (supportedHashes : List HashFn) (s : CacheState) (e : CacheEntry) {ks : List Bytes}
    (hks : allHashes sha256 decode supportedHashes e = some ks) (K : Bytes) :
    (cacheAdd sha256 decode supportedHashes s e).1.lookupMap K =
      if K ∈ ks then some e else s.lookupMap K := by
  simp [cacheAdd, hks, mapUpdAll_apply]

theorem cacheRemove_entries (sha256 : HashFn) (decode : SpkiDecode)
    (supportedHashes : List HashFn) (s : CacheState) (name : String) {e0 : CacheEntry}
    {ks : List Bytes} (he0 : s.entries name = some e0)
    (hks : allHashes sha256 decode supportedHashes e0 = some ks) (n : String) :
    (cacheRemove sha256 decode supportedHashes s name).1.entries n =
      if n = name then none else s.entries n := by
  simp [cacheRemove, he0, hks, mapDel_apply]

theorem cacheRemove_lookup (sha256 : HashFn) (decode : SpkiDecode)
    (supportedHashes : List HashFn) (s : CacheState) (name : String) {e0 : CacheEntry}
    {ks : List Bytes} (he0 : s.entries name = some e0)
    (hks : allHashes sha256 decode supportedHashes e0 = some ks) (K : Bytes) :
    (cacheRemove sha256 decode supportedHashes s name).1.lookupMap K =
      if K ∈ ks then none else s.lookupMap K := by
  simp [cacheRemove, he0, hks, mapDelAll_apply]

theorem cacheInv_empty (sha256 : HashFn) (decode : SpkiDecode)
    (supportedHashes : List HashFn) :
    CacheInv sha256 decode supportedHashes [] emptyCache := by
  refine ⟨fun n E hE => ?_, fun K E hE => ?_, fun E hE => ?_⟩ <;>
    simp [emptyCache, mapEmpty] at hE

theorem cacheInv_add (sha256 : HashFn) (decode : SpkiDecode)
    (supportedHashes : List HashFn) {added : List CacheEntry} {s : CacheState}
    {e : CacheEntry}
    (hinv : CacheInv sha256 decode supportedHashes added s)
    (hsome : (allHashes sha256 decode supportedHashes e).isSome = true)
    (hcompat : ∀ a ∈ added, entryCompat sha256 decode supportedHashes a e) :
    CacheInv sha256 decode supportedHashes (added ++ [e])
      (cacheAdd sha256 decode supportedHashes s e).1 := by
  obtain ⟨ks, hks⟩ := Option.isSome_iff_exists.mp hsome
  have hkeys := keysOf_eq_of_allHashes sha256 decode supportedHashes hks
  obtain ⟨hA, hB, hC⟩ := hinv
  have hfresh : s.entries e.name = none := by
    cases hEs : s.entries e.name with
    | none => rfl
    | some E =>
      obtain ⟨hname, hmem⟩ := hA _ _ hEs
      exact absurd hname (hcompat E hmem).1
  refine ⟨?_, ?_, ?_⟩
  · intro n E hE
    rw [cacheAdd_entries sha256 decode supportedHashes s e hks] at hE
    by_cases hn : n = e.name
    · rw [if_pos hn] at hE
      injection hE with hE
      subst hE
      exact ⟨hn.symm, by simp⟩
    · rw [if_neg hn] at hE
      obtain ⟨h1, h2⟩ := hA _ _ hE
      exact ⟨h1, by simp [h2]⟩
  · intro K E hE
    rw [cacheAdd_lookup sha256 decode supportedHashes s e hks] at hE
    rw [cacheAdd_entries sha256 decode supportedHashes s e hks]
    by_cases hK : K ∈ ks
    · rw [if_pos hK] at hE
      injection hE with hE
      subst hE
      rw [if_pos rfl]
      exact ⟨rfl, by rw [hkeys]; exact hK⟩
    · rw [if_neg hK] at hE
      obtain ⟨h1, h2⟩ := hB _ _ hE
      have hne : E.name ≠ e.name := by
        intro hcontra
        rw [hcontra, hfresh] at h1
        exact Option.noConfusion h1
      rw [if_neg hne]
      exact ⟨h1, h2⟩
  · intro E hE K hK
    rw [cacheAdd_entries sha256 decode supportedHashes s e hks] at hE
    rw [cacheAdd_lookup sha256 decode supportedHashes s e hks]
    by_cases hn : E.name = e.name
    · rw [if_pos hn] at hE
      injection hE with hE
      subst hE
      rw [hkeys] at hK
      rw [if_pos hK]
    · rw [if_neg hn] at hE
      have h3 := hC _ hE K hK
      obtain ⟨_, hmem⟩ := hA _ _ hE
      have hKnot : K ∉ ks := by
        rw [← hkeys]
        exact keysDisjoint_not_mem sha256 decode supportedHashes (hcompat E hmem).2.1 hK
      rw [if_neg hKnot]
      exact h3

theorem cacheInv_remove (sha256 : HashFn) (decode : SpkiDecode)
    (supportedHashes : List HashFn) {added : List CacheEntry} {s : CacheState}
    {name : String}
    (hinv : CacheInv sha256 decode supportedHashes added s)
    (hdef : ∀ a ∈ added, (allHashes sha256 decode supportedHashes a).isSome = true)
    (hpair : ∀ a ∈ added, ∀ b ∈ added, a ≠ b → entryCompat sha256 decode supportedHashes a b) :
    CacheInv sha256 decode supportedHashes added
      (cacheRemove sha256 decode supportedHashes s name).1 := by
  obtain ⟨hA, hB, hC⟩ := hinv
  cases he0 : s.entries name with
  | none =>
    have hsame : (cacheRemove sha256 decode supportedHashes s name).1 = s := by
      simp [cacheRemove, he0]
    rw [hsame]
    exact ⟨hA, hB, hC⟩
  | some e0 =>
    obtain ⟨hname0, hmem0⟩ := hA _ _ he0
    obtain ⟨ks, hks⟩ := Option.isSome_iff_exists.mp (hdef e0 hmem0)
    have hkeys0 := keysOf_eq_of_allHashes sha256 decode supportedHashes hks
    refine ⟨?_, ?_, ?_⟩
    · intro n E hE
      rw [cacheRemove_entries sha256 decode supportedHashes s name he0 hks] at hE
      by_cases hn : n = name
      · rw [if_pos hn] at hE
        exact Option.noConfusion hE
      · rw [if_neg hn] at hE
        exact hA _ _ hE
    · intro K E hE
      rw [cacheRemove_lookup sha256 decode supportedHashes s name he0 hks] at hE
      rw [cacheRemove_entries sha256 decode supportedHashes s name he0 hks]
      by_cases hK : K ∈ ks
      · rw [if_pos hK] at hE
        exact Option.noConfusion hE
      · rw [if_neg hK] at hE
        obtain ⟨h1, h2⟩ := hB _ _ hE
        have hne : E.name ≠ name := by
          intro hcontra
          rw [hcontra, he0] at h1
          injection h1 with h1
          subst h1
          rw [hkeys0] at h2
          exact hK h2
        rw [if_neg hne]
        exact ⟨h1, h2⟩
    · intro E hE K hK
      rw [cacheRemove_entries sha256 decode supportedHashes s name he0 hks] at hE
      rw [cacheRemove_lookup sha256 decode supportedHashes s name he0 hks]
      by_cases hn : E.name = name
      · rw [if_pos hn] at hE
        exact Option.noConfusion hE
      · rw [if_neg hn] at hE
        have h3 := hC _ hE K hK
        obtain ⟨_, hmemE⟩ := hA _ _ hE
        have hEne0 : e0 ≠ E := by
          intro hcontra
          exact hn (hcontra ▸ hname0)
        have hcomp := hpair e0 hmem0 E hmemE hEne0
        have hKnot : K ∉ ks := by
          rw [← hkeys0]
          exact keysDisjoint_not_mem sha256 decode supportedHashes hcomp.2.2 hK
        rw [if_neg hKnot]
        exact h3

theorem runOps_inv (sha256 : HashFn) (decode : SpkiDecode)
    (supportedHashes : List HashFn) (ops : List CacheOp) :
    ∀ (added : List CacheEntry) (s : CacheState),
    CacheInv sha256 decode supportedHashes added s →
    noAddSingle ops = true →
    (∀ a ∈ added ++ addsOf ops, (allHashes sha256 decode supportedHashes a).isSome = true) →
    (added ++ addsOf ops).Pairwise (entryCompat sha256 decode supportedHashes) →
    CacheInv sha256 decode supportedHashes (added ++ addsOf ops)
      (runOps sha256 decode supportedHashes s ops) := by
  induction ops with
  | nil =>
    intro added s hinv _ _ _
    simpa [runOps, addsOf] using hinv
  | cons op ops ih =>
    intro added s hinv hsingle hdef hpair
    cases op with
    | addSingle e k => simp [noAddSingle] at hsingle
    | add e =>
      have haddsOf : addsOf (.add e :: ops) = e :: addsOf ops := rfl
      rw [haddsOf] at hdef hpair ⊢
      have hsingle' : noAddSingle ops = true := by
        simpa [noAddSingle] using hsingle
      have hcompat : ∀ a ∈ added, entryCompat sha256 decode supportedHashes a e := by
        intro a ha
        exact (List.pairwise_append.mp hpair).2.2 a ha e (by simp)
      have hsome : (allHashes sha256 decode supportedHashes e).isSome = true :=
        hdef e (by simp)
      have hassoc : added ++ e :: addsOf ops = (added ++ [e]) ++ addsOf ops := by simp
      rw [hassoc] at hdef hpair ⊢
      exact ih (added ++ [e]) _ (cacheInv_add sha256 decode supportedHashes hinv hsome hcompat)
        hsingle' hdef hpair
    | remove n =>
      have haddsOf : addsOf (.remove n :: ops) = addsOf ops := rfl
      rw [haddsOf] at hdef hpair ⊢
      have hsingle' : noAddSingle ops = true := by
        simpa [noAddSingle] using hsingle
      have hdefAdded : ∀ a ∈ added, (allHashes sha256 decode supportedHashes a).isSome = true :=
        fun a ha => hdef a (by simp [ha])
      have hpairAdded : ∀ a ∈ added, ∀ b ∈ added, a ≠ b →
          entryCompat sha256 decode supportedHashes a b := by
        intro a ha b hb hab
        exact List.Pairwise.forall (entryCompat_symmetric sha256 decode supportedHashes) hpair
          (by simp [ha]) (by simp [hb]) hab
      exact ih added _ (cacheInv_remove sha256 decode supportedHashes hinv hdefAdded hpairAdded)
        hsingle' hdef hpair

/-- Claim C4 is false as stated: after the single operation
`addSingle(e, k₁)` the entry sits in `byName` under its name, its second
request key is among its computed keys, yet `byRequestKey` resolves that
key to nothing. -/
theorem cache_key_invariant_counterexample :
    (runOps toySha idDecode toySupportedHashes emptyCache
        [.addSingle ⟨"a", [5], [6], 7⟩ [9, 1, 5, 1, 6, 9, 7]]).entries "a" =
      some ⟨"a", [5], [6], 7⟩ ∧
    keysOf toySha idDecode toySupportedHashes ⟨"a", [5], [6], 7⟩ =
      [[9, 1, 5, 1, 6, 9, 7], [9, 2, 5, 2, 6, 9, 7],
        [9, 3, 5, 3, 6, 9, 7], [9, 4, 5, 4, 6, 9, 7]] ∧
    (runOps toySha idDecode toySupportedHashes emptyCache
        [.addSingle ⟨"a", [5], [6], 7⟩ [9, 1, 5, 1, 6, 9, 7]]).lookupMap
      [9, 2, 5, 2, 6, 9, 7] = none := by
  refine ⟨by decide, by decide, by decide⟩

/-- Claim C4 as amended: after any sequence of `add` and `Remove`
operations — no `addSingle`, every key computation succeeding, and the
added entries pairwise compatible (distinct names, disjoint key sets) —
an entry is reachable under each of its request keys exactly when it is
stored in `byName`: `add` installs the name and all configured keys, and
`Remove` deletes the name and all of them. -/
theorem cache_key_invariant (sha256 : HashFn) (decode : SpkiDecode)
    (supportedHashes : List HashFn) (ops : List CacheOp)
    (hsingle : noAddSingle ops = true)
    (hdef : ∀ a ∈ addsOf ops, (allHashes sha256 decode supportedHashes a).isSome = true)
    (hpair : (addsOf ops).Pairwise (entryCompat sha256 decode supportedHashes))
    (E : CacheEntry) (K : Bytes) (hK : K ∈ keysOf sha256 decode supportedHashes E) :
    (runOps sha256 decode supportedHashes emptyCache ops).lookupMap K = some E ↔
      (runOps sha256 decode supportedHashes emptyCache ops).entries E.name = some E := by
  obtain ⟨hA, hB, hC⟩ := runOps_inv sha256 decode supportedHashes ops [] emptyCache
    (cacheInv_empty sha256 decode supportedHashes) hsingle (by simpa using hdef)
    (by simpa using hpair)
  constructor
  · intro h
    exact (hB _ _ h).1
  · intro h
    exact hC _ h K hK

/-- Witness for the amended C4: a trace of one `add` followed by a
`Remove` of an absent name, checked at the added entry's first key. -/
theorem cache_key_invariant_witness :
    (runOps toySha idDecode toySupportedHashes emptyCache
        [.add ⟨"a", [5], [6], 7⟩, .remove "z"]).lookupMap [9, 1, 5, 1, 6, 9, 7] =
      some ⟨"a", [5], [6], 7⟩ ↔
    (runOps toySha idDecode toySupportedHashes emptyCache
        [.add ⟨"a", [5], [6], 7⟩, .remove "z"]).entries "a" = some ⟨"a", [5], [6], 7⟩ := by
  have hdef : ∀ a ∈ addsOf [CacheOp.add ⟨"a", [5], [6], 7⟩, .remove "z"],
      (allHashes toySha idDecode toySupportedHashes a).isSome = true := by
    intro a ha
    simp only [addsOf, List.mem_singleton] at ha
    subst ha
    decide
  have hpair : (addsOf [CacheOp.add ⟨"a", [5], [6], 7⟩, .remove "z"]).Pairwise
      (entryCompat toySha idDecode toySupportedHashes) := by
    simp only [addsOf]
    exact List.pairwise_singleton _ _
  have hK : [9, 1, 5, 1, 6, 9, 7] ∈
      keysOf toySha idDecode toySupportedHashes ⟨"a", [5], [6], 7⟩ := by
    rw [show keysOf toySha idDecode toySupportedHashes ⟨"a", [5], [6], 7⟩ =
        [[9, 1, 5, 1, 6, 9, 7], [9, 2, 5, 2, 6, 9, 7],
          [9, 3, 5, 3, 6, 9, 7], [9, 4, 5, 4, 6, 9, 7]] from rfl]
    simp
  exact cache_key_invariant toySha idDecode toySupportedHashes
    [.add ⟨"a", [5], [6], 7⟩, .remove "z"] (by decide) hdef hpair
    ⟨"a", [5], [6], 7⟩ [9, 1, 5, 1, 6, 9, 7] hK

end Stapled
